import Mathlib

/-!
Verification of the Unit-Test-Agent frontend against its design specification.

The development shallowly embeds the JavaScript source:
- `ProgressTracker` (phase list and phase-status classification),
- `AnalysisForm` (form validation and the submitted request payload),
- `AnalysisPage` (status polling and error-message derivation),
- `ResultsPage` (artifact download filenames and per-language result rendering),
and a spec-modelled orchestrator progress trace for the monotonicity property.
-/

namespace UnitTestAgent

/-! ### ProgressTracker: the pipeline phase list (components/ProgressTracker.js) -/

structure Phase where
  id : String
  name : String
  description : String
  startProgress : ℚ
  endProgress : ℚ
deriving DecidableEq

def initializationPhase : Phase :=
  { id := "initialization", name := "Initialization"
    description := "Setting up analysis environment"
    startProgress := 0, endProgress := 10 }

def cloningPhase : Phase :=
  { id := "cloning", name := "Cloning Repository"
    description := "Downloading repository from GitHub"
    startProgress := 10, endProgress := 20 }

def analysisPhase : Phase :=
  { id := "analysis", name := "Code Analysis"
    description := "Detecting languages and structure"
    startProgress := 20, endProgress := 30 }

def generationPhase : Phase :=
  { id := "generation", name := "Test Generation"
    description := "AI generating unit tests"
    startProgress := 30, endProgress := 70 }

def executionPhase : Phase :=
  { id := "execution", name := "Test Execution"
    description := "Running tests and coverage"
    startProgress := 70, endProgress := 90 }

def completionPhase : Phase :=
  { id := "completion", name := "Finalization"
    description := "Preparing results and reports"
    startProgress := 90, endProgress := 100 }

def phases : List Phase :=
  [initializationPhase, cloningPhase, analysisPhase,
   generationPhase, executionPhase, completionPhase]

inductive PhaseStatus where
  | completed
  | current
  | pending
deriving DecidableEq

/-- `getPhaseStatus` from ProgressTracker.js: completed when
`progress >= phase.endProgress`, current when
`progress >= phase.startProgress && progress < phase.endProgress`,
otherwise pending. -/
def getPhaseStatus (progress : ℚ) (phase : Phase) : PhaseStatus :=
  if phase.endProgress ≤ progress then .completed
  else if phase.startProgress ≤ progress ∧ progress < phase.endProgress then .current
  else .pending

/-- `getCurrentPhase` from ProgressTracker.js:
`phases.find(...) || phases[phases.length - 1]`. -/
def getCurrentPhase (progress : ℚ) : Phase :=
  match phases.find? (fun ph =>
      decide (ph.startProgress ≤ progress) && decide (progress < ph.endProgress)) with
  | some ph => ph
  | none => phases.getLastD initializationPhase

/-- Spec-side predicate: starting from `cur`, each phase's start equals the
running boundary, each range is a nonempty half-open interval, and the chain
ends exactly at 100. -/
def partitionFrom : ℚ → List Phase → Bool
  | cur, [] => decide (cur = 100)
  | cur, ph :: rest =>
      decide (ph.startProgress = cur) && decide (ph.startProgress < ph.endProgress) &&
      partitionFrom ph.endProgress rest

/-- Claim C1: the pipeline definition's progress ranges are well formed:
every phase's (startProgress, endProgress) is a half-open range inside
[0,100], consecutive phases share their boundary (no gaps, no overlap),
the first start is 0 and the last end is 100, so the ranges partition
[0,100]. -/
theorem claim1_phase_ranges_partition :
    partitionFrom 0 phases = true ∧
    phases.all (fun ph =>
      decide (0 ≤ ph.startProgress) && decide (ph.endProgress ≤ 100)) = true := by
  decide

/-- Claim C2 counterexample: the phase list shown to the user does not
consist of exactly the five stages clone, code analysis, test generation,
test execution, finalization: it has six entries, the extra first one being
Initialization. -/
theorem claim2_counterexample :
    phases.map Phase.name ≠
      ["Cloning Repository", "Code Analysis", "Test Generation",
       "Test Execution", "Finalization"] ∧
    phases.length = 6 ∧ initializationPhase ∈ phases := by
  decide

/-- Claim C2 (amended): the ordered list of pipeline phases shown to the
user is the fixed six-stage sequence initialization, clone, code analysis,
test generation, test execution, finalization, in that order and no
others. -/
theorem claim2_phase_sequence :
    phases.map Phase.name =
      ["Initialization", "Cloning Repository", "Code Analysis",
       "Test Generation", "Test Execution", "Finalization"] := by
  decide

lemma status_completed_iff (p : ℚ) (ph : Phase) :
    getPhaseStatus p ph = .completed ↔ ph.endProgress ≤ p := by
  unfold getPhaseStatus
  split_ifs with h1 h2 <;> simp_all

lemma status_current_iff (p : ℚ) (ph : Phase) :
    getPhaseStatus p ph = .current ↔ (ph.startProgress ≤ p ∧ p < ph.endProgress) := by
  unfold getPhaseStatus
  split_ifs with h1 h2 <;> simp_all

/-- Claim C9: phase-status classification is consistent and total: each
phase gets exactly one of the three statuses, a phase is completed exactly
when `progress >= endProgress`, at most one phase is current (exactly one
for progress in [0,100)), `getCurrentPhase` always returns a phase of the
list, and it falls back to the final Finalization phase whenever no
phase's half-open range contains the progress value (in particular at
progress = 100). -/
theorem claim9_phase_status_classification (p : ℚ) :
    (∀ ph : Phase, getPhaseStatus p ph = .completed ∨
        getPhaseStatus p ph = .current ∨ getPhaseStatus p ph = .pending) ∧
    (∀ ph : Phase, getPhaseStatus p ph = .completed ↔ ph.endProgress ≤ p) ∧
    (∀ ph1 ph2, ph1 ∈ phases → ph2 ∈ phases →
        getPhaseStatus p ph1 = .current → getPhaseStatus p ph2 = .current → ph1 = ph2) ∧
    (0 ≤ p → p < 100 → ∃ ph, ph ∈ phases ∧ getPhaseStatus p ph = .current) ∧
    getCurrentPhase p ∈ phases ∧
    ((∀ ph ∈ phases, ¬(ph.startProgress ≤ p ∧ p < ph.endProgress)) →
        getCurrentPhase p = completionPhase) := by
  refine ⟨?_, status_completed_iff p, ?_, ?_, ?_, ?_⟩
  · intro ph
    unfold getPhaseStatus
    split_ifs <;> simp
  · intro ph1 ph2 h1 h2 hc1 hc2
    rw [status_current_iff] at hc1 hc2
    simp only [phases, List.mem_cons, List.not_mem_nil, or_false] at h1 h2
    rcases h1 with rfl | rfl | rfl | rfl | rfl | rfl <;>
      rcases h2 with rfl | rfl | rfl | rfl | rfl | rfl <;>
      first
        | rfl
        | (exfalso
           simp only [initializationPhase, cloningPhase, analysisPhase,
             generationPhase, executionPhase, completionPhase] at hc1 hc2
           obtain ⟨a1, b1⟩ := hc1
           obtain ⟨a2, b2⟩ := hc2
           linarith)
  · intro h0 h100
    rcases lt_or_le p 10 with h | h
    · exact ⟨initializationPhase, by decide,
        (status_current_iff p _).mpr (by constructor <;> simp [initializationPhase] <;> linarith)⟩
    rcases lt_or_le p 20 with h' | h'
    · exact ⟨cloningPhase, by decide,
        (status_current_iff p _).mpr (by constructor <;> simp [cloningPhase] <;> linarith)⟩
    rcases lt_or_le p 30 with h'' | h''
    · exact ⟨analysisPhase, by decide,
        (status_current_iff p _).mpr (by constructor <;> simp [analysisPhase] <;> linarith)⟩
    rcases lt_or_le p 70 with h3 | h3
    · exact ⟨generationPhase, by decide,
        (status_current_iff p _).mpr (by constructor <;> simp [generationPhase] <;> linarith)⟩
    rcases lt_or_le p 90 with h4 | h4
    · exact ⟨executionPhase, by decide,
        (status_current_iff p _).mpr (by constructor <;> simp [executionPhase] <;> linarith)⟩
    · exact ⟨completionPhase, by decide,
        (status_current_iff p _).mpr (by constructor <;> simp [completionPhase] <;> linarith)⟩
  · unfold getCurrentPhase
    cases hfind : phases.find? (fun ph =>
        decide (ph.startProgress ≤ p) && decide (p < ph.endProgress)) with
    | none => simp only; decide
    | some ph => exact List.mem_of_find?_eq_some hfind
  · intro hnone
    unfold getCurrentPhase
    have hfind : phases.find? (fun ph =>
        decide (ph.startProgress ≤ p) && decide (p < ph.endProgress)) = none := by
      rw [List.find?_eq_none]
      intro ph hph
      have := hnone ph hph
      simp only [Bool.and_eq_true, decide_eq_true_eq]
      tauto
    rw [hfind]
    decide

/-- Concrete instance of claim C9 at progress = 100: no phase's half-open
range contains 100, so `getCurrentPhase` falls back to the final
Finalization phase; and at 100 the Test Execution phase counts as
completed while the list still contains it. -/
theorem claim9_witness :
    getCurrentPhase 100 = completionPhase ∧
    getPhaseStatus 100 executionPhase = .completed := by
  have h := claim9_phase_status_classification 100
  exact ⟨h.2.2.2.2.2 (by decide), (h.2.1 executionPhase).mpr (by decide)⟩

/-! ### AnalysisForm: validation rules and submitted payload
(components/AnalysisForm.js) -/

/-- The values held by the form fields when the form is submitted.
Checkbox fields are booleans; the two number inputs are `none` when left
empty (`parseInt` of an empty value is NaN, an empty string is falsy). -/
structure AnalysisFormData where
  repositoryUrl : String
  apiKey : String
  includeDependencies : Bool
  generateMocks : Bool
  targetCoverage : Option Int
  maxFiles : Option Int
deriving DecidableEq

/-- Strip a literal header from the front of a character list, returning
the remainder on success. -/
def chStartsWith : List Char → List Char → Option (List Char)
  | rest, [] => some rest
  | [], _ :: _ => none
  | c :: cs, p :: ps => if c = p then chStartsWith cs ps else none

/-- Split a character list on the slash character, keeping empty
segments. -/
def splitOnSlash : List Char → List (List Char)
  | [] => [[]]
  | c :: cs =>
    if c = '/' then [] :: splitOnSlash cs
    else
      match splitOnSlash cs with
      | [] => [[c]]
      | g :: gs => (c :: g) :: gs

/-- The registered pattern for the repository URL field:
the regular expression from AnalysisForm.js, anchored at both ends:
`https://github.com/` followed by one nonempty slash-free segment, a
slash, and a second nonempty slash-free segment. -/
def matchesRepoUrlPattern (s : String) : Bool :=
  match chStartsWith s.data "https://github.com/".data with
  | none => false
  | some rest =>
    match splitOnSlash rest with
    | [owner, repo] => !owner.isEmpty && !repo.isEmpty
    | _ => false

/-- The registered pattern for the API key field: the anchored regular
expression from AnalysisForm.js, `sk-or-v1-` followed by one or more
ASCII alphanumeric characters. -/
def matchesApiKeyPattern (s : String) : Bool :=
  match chStartsWith s.data "sk-or-v1-".data with
  | none => false
  | some rest => !rest.isEmpty && rest.all Char.isAlphanum

/-- The react-hook-form validation applied by `handleSubmit`: both required
fields present and matching their registered patterns, the target coverage
within its registered min 0 / max 100 bounds when entered, and max files at
least its registered min 1 when entered. -/
def validateForm (fd : AnalysisFormData) : Bool :=
  !fd.repositoryUrl.isEmpty && matchesRepoUrlPattern fd.repositoryUrl &&
  !fd.apiKey.isEmpty && matchesApiKeyPattern fd.apiKey &&
  (match fd.targetCoverage with
   | none => true
   | some n => decide (0 ≤ n) && decide (n ≤ 100)) &&
  (match fd.maxFiles with
   | none => true
   | some n => decide (1 ≤ n))

/-- The field-level error shown for the repository URL input, from its
`register` options in AnalysisForm.js. -/
def repositoryUrlError (fd : AnalysisFormData) : Option String :=
  if fd.repositoryUrl.isEmpty then some "Repository URL is required"
  else if !matchesRepoUrlPattern fd.repositoryUrl then
    some "Please enter a valid GitHub repository URL"
  else none

/-- The request body sent to the analyze endpoint. -/
structure AnalysisRequest where
  repository_url : String
  api_key : String
  include_dependencies : Bool
  generate_mocks : Bool
  target_coverage : Int
  max_files : Option Int
deriving DecidableEq

/-- The payload built in `onSubmit` of AnalysisForm.js. The line
`parseInt(data.targetCoverage) || 80` yields 80 both when the field is
empty (NaN) and when the parsed value is 0; `data.maxFiles ?
parseInt(data.maxFiles) : null` is null exactly when the field is empty. -/
def buildAnalysisRequest (fd : AnalysisFormData) : AnalysisRequest :=
  { repository_url := fd.repositoryUrl
    api_key := fd.apiKey
    include_dependencies := fd.includeDependencies
    generate_mocks := fd.generateMocks
    target_coverage :=
      match fd.targetCoverage with
      | none => 80
      | some n => if n = 0 then 80 else n
    max_files := fd.maxFiles }

/-- `handleSubmit(onSubmit)`: `onSubmit` runs, and the request is issued,
only when every registered validation rule passes; otherwise no request is
sent. -/
def submitAnalysis (fd : AnalysisFormData) : Option AnalysisRequest :=
  if validateForm fd then some (buildAnalysisRequest fd) else none

/-- A form whose target coverage field holds the valid entry 0. -/
def formWithZeroCoverage : AnalysisFormData :=
  { repositoryUrl := "https://github.com/octocat/hello"
    apiKey := "sk-or-v1-abc123"
    includeDependencies := true
    generateMocks := true
    targetCoverage := some 0
    maxFiles := none }

/-- Claim C3 counterexample: a form whose target coverage entry is 0 passes
validation (0 is within the registered 0 to 100 bounds), yet the request
carries `target_coverage = 80`, not the user-entered integer 0, because of
`parseInt(data.targetCoverage) || 80`. -/
theorem claim3_counterexample :
    validateForm formWithZeroCoverage = true ∧
    formWithZeroCoverage.targetCoverage = some 0 ∧
    (buildAnalysisRequest formWithZeroCoverage).target_coverage = 80 := by
  decide

/-- Claim C3 (amended): for every submitted (validated) analysis form, the
request's `include_dependencies` and `generate_mocks` are the form's
checkbox booleans, `target_coverage` lies in 0 to 100 and equals the
user-entered integer whenever that integer is nonzero (defaulting to 80
when the field is empty or the entered integer is 0), and `max_files` is
either null (field empty) or the entered positive integer. -/
theorem claim3_payload_options (fd : AnalysisFormData)
    (h : validateForm fd = true) :
    (buildAnalysisRequest fd).include_dependencies = fd.includeDependencies ∧
    (buildAnalysisRequest fd).generate_mocks = fd.generateMocks ∧
    (0 ≤ (buildAnalysisRequest fd).target_coverage ∧
      (buildAnalysisRequest fd).target_coverage ≤ 100) ∧
    (∀ n : Int, fd.targetCoverage = some n → n ≠ 0 →
      (buildAnalysisRequest fd).target_coverage = n) ∧
    ((fd.targetCoverage = none ∨ fd.targetCoverage = some 0) →
      (buildAnalysisRequest fd).target_coverage = 80) ∧
    ((buildAnalysisRequest fd).max_files = fd.maxFiles ∧
      ∀ m : Int, (buildAnalysisRequest fd).max_files = some m → 1 ≤ m) := by
  simp only [validateForm, Bool.and_eq_true, decide_eq_true_eq] at h
  obtain ⟨⟨⟨⟨hurl, hkey⟩, hkey2⟩, htc⟩, hmf⟩ := h
  refine ⟨rfl, rfl, ?_, ?_, ?_, rfl, ?_⟩
  · simp only [buildAnalysisRequest]
    cases htarget : fd.targetCoverage with
    | none => simp
    | some n =>
      rw [htarget] at htc
      simp only [Bool.and_eq_true, decide_eq_true_eq] at htc
      by_cases hz : n = 0
      · simp [hz]
      · simp [hz]
        omega
  · intro n hn hnz
    simp [buildAnalysisRequest, hn, hnz]
  · intro hcase
    rcases hcase with hn | hn <;> simp [buildAnalysisRequest, hn]
  · intro m hm
    simp only [buildAnalysisRequest] at hm
    rw [hm] at hmf
    simpa using hmf

/-- Concrete instance of claim C3 (amended): a validated form entering
target coverage 90 and max files 5 yields a payload with
`target_coverage = 90` and `max_files = 5`. -/
theorem claim3_witness :
    (buildAnalysisRequest
      { repositoryUrl := "https://github.com/octocat/hello"
        apiKey := "sk-or-v1-abc123"
        includeDependencies := true
        generateMocks := false
        targetCoverage := some 90
        maxFiles := some 5 }).target_coverage = 90 := by
  exact (claim3_payload_options _ (by decide)).2.2.2.1 90 rfl (by decide)

/-- Claim C4: the analyze request is issued only for repository URLs
matching the GitHub repository pattern, and an input failing the pattern
yields no request and a visible validation error on the field. -/
theorem claim4_url_validated_before_submit (fd : AnalysisFormData) :
    ((submitAnalysis fd).isSome = true →
      matchesRepoUrlPattern fd.repositoryUrl = true) ∧
    (matchesRepoUrlPattern fd.repositoryUrl = false →
      submitAnalysis fd = none ∧ (repositoryUrlError fd).isSome = true) := by
  constructor
  · intro hsome
    unfold submitAnalysis at hsome
    by_cases hv : validateForm fd = true
    · simp only [validateForm, Bool.and_eq_true] at hv
      exact hv.1.1.1.1.2
    · simp [hv] at hsome
  · intro hfail
    have hv : validateForm fd = false := by
      unfold validateForm
      rw [hfail]
      simp
    refine ⟨by simp [submitAnalysis, hv], ?_⟩
    unfold repositoryUrlError
    by_cases he : fd.repositoryUrl.isEmpty <;> simp [he, hfail]

/-- Concrete instance of claim C4: a GitLab URL fails the pattern, so no
request is issued and the field shows a validation error. -/
theorem claim4_witness :
    submitAnalysis
      { repositoryUrl := "https://gitlab.com/octocat/hello"
        apiKey := "sk-or-v1-abc123"
        includeDependencies := true
        generateMocks := true
        targetCoverage := some 80
        maxFiles := none } = none := by
  exact (claim4_url_validated_before_submit _).2 (by decide) |>.1

/-! ### ResultsPage: artifact download filenames (pages/ResultsPage.js) -/

inductive ArtifactKind where
  | tests
  | coverage
deriving DecidableEq

/-- The filename chosen by `handleDownload` in ResultsPage.js:
`test_files_(taskId).zip` for the tests artifact and
`coverage_report_(taskId).zip` for the coverage artifact. -/
def downloadFilename (taskId : String) : ArtifactKind → String
  | .tests => "test_files_" ++ taskId ++ ".zip"
  | .coverage => "coverage_report_" ++ taskId ++ ".zip"

/-- Claim C5: artifact downloads use a stable deterministic naming
convention incorporating the task id: for every task id the tests artifact
is saved as test_files_(taskId).zip and the coverage artifact as
coverage_report_(taskId).zip; the name is a pure function of the task id
and kind, so repeated downloads of the same pair agree. -/
theorem claim5_download_filenames (taskId : String) :
    downloadFilename taskId .tests = "test_files_" ++ taskId ++ ".zip" ∧
    downloadFilename taskId .coverage = "coverage_report_" ++ taskId ++ ".zip" ∧
    (∀ k1 k2 : ArtifactKind, k1 = k2 →
      downloadFilename taskId k1 = downloadFilename taskId k2) := by
  exact ⟨rfl, rfl, fun k1 k2 h => by rw [h]⟩

/-- Concrete instance of claim C5: for the task id abc123 the two artifact
kinds produce the two specified names, and repeated downloads of the same
pair agree. -/
theorem claim5_witness :
    downloadFilename "abc123" ArtifactKind.tests = "test_files_" ++ "abc123" ++ ".zip" ∧
    downloadFilename "abc123" ArtifactKind.coverage =
      downloadFilename "abc123" ArtifactKind.coverage :=
  ⟨(claim5_download_filenames "abc123").1,
   (claim5_download_filenames "abc123").2.2 ArtifactKind.coverage ArtifactKind.coverage rfl⟩

/-! ### AnalysisPage: polling lifecycle (pages/AnalysisPage.js) -/

/-- The client state of AnalysisPage that the status effect manipulates:
the react-query `refetchInterval` (a number of milliseconds, or disabled),
and the route navigated to, if any. -/
structure AnalysisPageState where
  pollingMs : Option Nat
  navigatedTo : Option String
deriving DecidableEq

/-- AnalysisPage starts with `useState(2000)` as the polling interval and
no navigation performed. -/
def initialAnalysisPageState : AnalysisPageState :=
  { pollingMs := some 2000, navigatedTo := none }

/-- The `useEffect` on `status?.status` in AnalysisPage.js: on completed it
disables the polling interval and navigates to the results route; on
failed it disables the polling interval only; otherwise nothing changes. -/
def onStatusObserved (taskId : String) (st : AnalysisPageState)
    (taskStatus : String) : AnalysisPageState :=
  if taskStatus = "completed" then
    { pollingMs := none, navigatedTo := some ("/results/" ++ taskId) }
  else if taskStatus = "failed" then
    { st with pollingMs := none }
  else st

/-- react-query refetches on an interval only while `refetchInterval` is a
number; setting it to false stops further polls. -/
def willPollAgain (st : AnalysisPageState) : Bool :=
  st.pollingMs.isSome

/-- Claim C6: completed and failed are terminal for the client: once a
status poll observes either, the polling interval is disabled so no
further status polls are issued; on completed the client navigates to the
results view, and on failed it performs no navigation. -/
theorem claim6_terminal_statuses_stop_polling (taskId : String)
    (st : AnalysisPageState) (s : String)
    (hterm : s = "completed" ∨ s = "failed") :
    willPollAgain (onStatusObserved taskId st s) = false ∧
    (s = "completed" →
      (onStatusObserved taskId st s).navigatedTo = some ("/results/" ++ taskId)) ∧
    (s = "failed" →
      (onStatusObserved taskId st s).navigatedTo = st.navigatedTo) := by
  rcases hterm with rfl | rfl <;>
    simp [onStatusObserved, willPollAgain]

/-- Concrete instance of claim C6: observing a completed status from the
initial page state disables polling. -/
theorem claim6_witness :
    willPollAgain (onStatusObserved "task-1" initialAnalysisPageState "completed") = false := by
  exact (claim6_terminal_statuses_stop_polling "task-1"
    initialAnalysisPageState "completed" (Or.inl rfl)).1

/-! ### ResultsPage: per-language test result rendering
(pages/ResultsPage.js) -/

/-- One entry of a language's `files` list in `results.test_files`;
`test_count` may be absent. -/
structure GeneratedFile where
  test_file : String
  test_count : Option Nat
deriving DecidableEq

/-- One language's entry in `results.test_files`; the `files` list itself
may be absent. -/
structure LanguageTestData where
  framework : String
  files : Option (List GeneratedFile)
  success : Bool
deriving DecidableEq

/-- The Files Generated figure rendered by ResultsPage.js:
`data.files?.length || 0`. -/
def displayedFilesGenerated (d : LanguageTestData) : Nat :=
  match d.files with
  | none => 0
  | some fs => fs.length

/-- The Total Tests figure rendered by ResultsPage.js:
`data.files?.reduce((sum, file) => sum + (file.test_count || 0), 0) || 0`. -/
def displayedTotalTests (d : LanguageTestData) : Nat :=
  match d.files with
  | none => 0
  | some fs => fs.foldl (fun sum f => sum + f.test_count.getD 0) 0

lemma foldl_add_eq_sum {α : Type} (g : α → Nat) :
    ∀ (l : List α) (init : Nat),
      l.foldl (fun s x => s + g x) init = init + (l.map g).sum := by
  intro l
  induction l with
  | nil => intro init; simp
  | cons x xs ih =>
    intro init
    simp only [List.foldl_cons, List.map_cons, List.sum_cons, ih]
    omega

/-- Claim C10: result rendering is total under missing optional sections
and computes counts as sums: for every `test_files` mapping, each
language's Files Generated figure equals the length of its files list
(0 when the list is missing) and its Total Tests figure equals the sum of
`test_count` over its files, a missing files list or a missing
`test_count` contributing 0 rather than failing. -/
theorem claim10_result_counts
    (testFiles : List (String × LanguageTestData)) :
    ∀ lang d, (lang, d) ∈ testFiles →
      displayedFilesGenerated d = (d.files.getD []).length ∧
      displayedTotalTests d =
        ((d.files.getD []).map (fun f => f.test_count.getD 0)).sum := by
  intro lang d _
  constructor
  · cases h : d.files <;> simp [displayedFilesGenerated, h]
  · cases h : d.files with
    | none => simp [displayedTotalTests, h]
    | some fs =>
      simp only [displayedTotalTests, h, Option.getD_some]
      rw [foldl_add_eq_sum]
      omega

/-- A sample per-language result with one missing `test_count`. -/
def pythonResult : LanguageTestData :=
  { framework := "pytest"
    files := some [{ test_file := "test_app.py", test_count := some 3 },
                   { test_file := "test_util.py", test_count := none }]
    success := true }

/-- A sample per-language result with no files list at all. -/
def goResult : LanguageTestData :=
  { framework := "Go testing", files := none, success := false }

/-- Concrete instance of claim C10: on a mapping holding a language with a
missing `test_count` and a language with a missing files list, the
rendered figures equal the specified length and sum. -/
theorem claim10_witness :
    displayedFilesGenerated pythonResult = (pythonResult.files.getD []).length ∧
    displayedTotalTests pythonResult =
      ((pythonResult.files.getD []).map (fun f => f.test_count.getD 0)).sum := by
  exact claim10_result_counts [("python", pythonResult), ("go", goResult)]
    "python" pythonResult (by simp)

/-! ### Error-message derivation (AnalysisForm.js / AnalysisPage.js /
ResultsPage.js)

The three components share one chain over `error.response.data`; we embed
the JavaScript values involved and the chain itself. -/

/-- A JSON-ish JavaScript value as it appears in an error response body. -/
inductive JsonVal where
  | str (s : String)
  | num (n : Int)
  | bool (b : Bool)
  | null
  | arr (xs : List JsonVal)
  | obj (fields : List (String × JsonVal))

/-- JavaScript truthiness of a value. -/
def truthy : JsonVal → Bool
  | .str s => !s.isEmpty
  | .num n => n != 0
  | .bool b => b
  | .null => false
  | .arr _ => true
  | .obj _ => true

/-- Whether a JavaScript value is a string. -/
def JsonVal.isStr : JsonVal → Bool
  | .str _ => true
  | _ => false

/-- Whether a JavaScript value is null. -/
def JsonVal.isNull : JsonVal → Bool
  | .null => true
  | _ => false

/-- JavaScript property access: a named property exists only on objects
(the property names used here do not exist on the other value kinds). -/
def jsGetProp : JsonVal → String → Option JsonVal
  | .obj fs, k => (fs.find? (fun p => decide (p.1 = k))).map (fun p => p.2)
  | _, _ => none

/-- A property that is present and truthy, as tested by `data.detail`,
`data.message`, `err.msg`. -/
def truthyProp (d : JsonVal) (k : String) : Option JsonVal :=
  match jsGetProp d k with
  | some v => if truthy v then some v else none
  | none => none

/-- JavaScript `String()` coercion of the values in the model; array
elements are joined with commas, with null elements rendered empty. -/
def jsString : JsonVal → String
  | .str s => s
  | .num n => toString n
  | .bool b => cond b "true" "false"
  | .null => "null"
  | .obj _ => "[object Object]"
  | .arr xs =>
    String.intercalate ","
      (xs.attach.map (fun x => if x.1.isNull then "" else jsString x.1))
decreasing_by
  simp_wf
  have h := List.sizeOf_lt_of_mem x.2
  omega

/-- Escape a string for inclusion in a JSON document (quote and backslash
characters). -/
def escapeJsonString (s : String) : String :=
  s.foldl (fun acc c =>
    acc ++ (if c = '"' then "\\\"" else if c = '\\' then "\\\\" else String.singleton c)) ""

/-- JavaScript `JSON.stringify` on the modelled values. -/
def jsonStringify : JsonVal → String
  | .str s => "\"" ++ escapeJsonString s ++ "\""
  | .num n => toString n
  | .bool b => cond b "true" "false"
  | .null => "null"
  | .arr xs =>
    "[" ++ String.intercalate "," (xs.attach.map (fun x => jsonStringify x.1)) ++ "]"
  | .obj fs =>
    "\x7b" ++ String.intercalate ","
        (fs.attach.map (fun p =>
          "\"" ++ escapeJsonString p.1.1 ++ "\":" ++ jsonStringify p.1.2)) ++ "\x7d"
decreasing_by
  · simp_wf
    have h := List.sizeOf_lt_of_mem x.2
    omega
  · simp_wf
    have h := List.sizeOf_lt_of_mem p.2
    have h2 : sizeOf p.1.2 < sizeOf p.1 := by
      obtain ⟨⟨a, b⟩, hp⟩ := p
      simp
    omega

/-- The mapped element of the validation-error array branch:
`typeof err === 'string' ? err : err.msg || 'Validation error'`, each
element then coerced to a string by `join`. -/
def validationErrElem (e : JsonVal) : String :=
  match e with
  | .str s => s
  | _ =>
    match truthyProp e "msg" with
    | some v => jsString v
    | none => "Validation error"

/-- The `.join(', ')` over the mapped validation-error array. -/
def joinValidationErrors (xs : List JsonVal) : String :=
  String.intercalate ", " (xs.map validationErrElem)

/-- The branch chain applied to a truthy `error.response.data`: a string
body is used as is; otherwise a truthy `detail` property, then a truthy
`message` property, is used as is; an array is mapped and joined; anything
else is JSON-stringified. -/
def deriveFromData (d : JsonVal) : JsonVal :=
  match d with
  | .str s => .str s
  | _ =>
    match truthyProp d "detail" with
    | some v => v
    | none =>
      match truthyProp d "message" with
      | some v => v
      | none =>
        match d with
        | .arr xs => .str (joinValidationErrors xs)
        | _ => .str (jsonStringify d)

/-- The full error-message derivation shared by AnalysisForm.js,
AnalysisPage.js and ResultsPage.js: start from the component's fallback
text, use the response body chain when `error.response?.data` is truthy,
else fall back to a truthy `error.message`, else keep the fallback. -/
def deriveErrorMessage (fallback : String) (respData : Option JsonVal)
    (errMsg : Option String) : JsonVal :=
  match respData with
  | some d =>
    if truthy d then deriveFromData d
    else
      match errMsg with
      | some m => if !m.isEmpty then .str m else .str fallback
      | none => .str fallback
  | none =>
    match errMsg with
    | some m => if !m.isEmpty then .str m else .str fallback
    | none => .str fallback

/-- Side condition: the response body's `detail` property, when present
and truthy on an object body, is itself a string. -/
def detailPropIsString (respData : Option JsonVal) : Bool :=
  match respData with
  | none => true
  | some d =>
    match truthyProp d "detail" with
    | some v => v.isStr
    | none => true

/-- Side condition: the response body's `message` property, when present
and truthy on an object body, is itself a string. -/
def messagePropIsString (respData : Option JsonVal) : Bool :=
  match respData with
  | none => true
  | some d =>
    match truthyProp d "message" with
    | some v => v.isStr
    | none => true

lemma deriveFromData_isStr (d : JsonVal)
    (hd : (match truthyProp d "detail" with
           | some v => v.isStr
           | none => true) = true)
    (hm : (match truthyProp d "message" with
           | some v => v.isStr
           | none => true) = true) :
    (deriveFromData d).isStr = true := by
  cases d with
  | str s => rfl
  | num n => rfl
  | bool b => rfl
  | null => rfl
  | arr xs => rfl
  | obj fs =>
    cases hdet : truthyProp (.obj fs) "detail" with
    | some v =>
      simp only [hdet] at hd
      simpa [deriveFromData, hdet] using hd
    | none =>
      cases hmsg : truthyProp (.obj fs) "message" with
      | some v =>
        simp only [hmsg] at hm
        simpa [deriveFromData, hdet, hmsg] using hm
      | none => simp [deriveFromData, hdet, hmsg, JsonVal.isStr]

/-- Claim C7 counterexample: an error body that is an object carrying a
truthy non-string `detail` field is surfaced raw: the derived error
message is the number 5, not a string. -/
theorem claim7_counterexample :
    (deriveErrorMessage "An error occurred while loading the task"
      (some (.obj [("detail", .num 5)])) none).isStr = false ∧
    deriveErrorMessage "An error occurred while loading the task"
      (some (.obj [("detail", .num 5)])) none = .num 5 :=
  ⟨rfl, rfl⟩

/-- Claim C7 (amended): the derived error message is a string for every
error response shape — a plain string body, an object with a detail or
message field, an array of strings or of objects with msg fields, any
other object, or no response body at all — provided that a truthy detail
or message property on the body is itself a string; a truthy non-string
detail or message property is surfaced raw instead. -/
theorem claim7_error_message_is_string (fallback : String)
    (respData : Option JsonVal) (errMsg : Option String)
    (hdetail : detailPropIsString respData = true)
    (hmessage : messagePropIsString respData = true) :
    (deriveErrorMessage fallback respData errMsg).isStr = true := by
  cases respData with
  | none =>
    cases errMsg with
    | none => rfl
    | some m =>
      show ((if !m.isEmpty then JsonVal.str m else .str fallback)).isStr = true
      by_cases hm : m.isEmpty <;> simp [hm, JsonVal.isStr]
  | some d =>
    by_cases ht : truthy d = true
    · show ((if truthy d then deriveFromData d else _)).isStr = true
      rw [if_pos ht]
      exact deriveFromData_isStr d hdetail hmessage
    · show ((if truthy d then deriveFromData d else
          match errMsg with
          | some m => if !m.isEmpty then JsonVal.str m else .str fallback
          | none => .str fallback)).isStr = true
      rw [if_neg ht]
      cases errMsg with
      | none => rfl
      | some m => by_cases hm : m.isEmpty <;> simp [hm, JsonVal.isStr]

/-- Concrete instance of claim C7 (amended): a validation-error array body
mixing a bare string, an object with a msg field, and an object without
one derives a single human-readable string. -/
theorem claim7_witness :
    (deriveErrorMessage "Failed to start analysis"
      (some (.arr [.str "repository_url malformed",
                   .obj [("msg", .str "field required")],
                   .obj [("loc", .str "body")]]))
      (some "Request failed with status code 422")).isStr = true := by
  exact claim7_error_message_is_string "Failed to start analysis" _ _
    (by decide) (by decide)


/-! ### Spec-modelled orchestrator progress trace

The orchestrator, stage interface and task record store are backend
components not present under src/; the definitions below are modelled from
the spec (sections 4.2 and 5). -/

/-- Modelled from the spec: a pipeline stage tagged with its absolute
progress-percentage range (section 3, Stage). -/
structure StageRange where
  name : String
  startP : ℚ
  endP : ℚ

/-- Modelled from the spec: the orchestrator maps a stage's fractional
progress notification (0 to 1) into the absolute task progress range by
linear interpolation (section 4.2). -/
def interpolate (r : StageRange) (f : ℚ) : ℚ :=
  r.startP + f * (r.endP - r.startP)

/-- Modelled from the spec: the absolute progress values written to the
task record for one stage's sequence of fractional notifications. -/
def stageUpdates (r : StageRange) (fracs : List ℚ) : List ℚ :=
  fracs.map (interpolate r)

/-- Modelled from the spec: stages run strictly in pipeline order, so the
full sequence of progress writes for a task is the concatenation of the
per-stage writes (section 4.2). -/
def runUpdates : List (StageRange × List ℚ) → List ℚ
  | [] => []
  | (r, fs) :: rest => stageUpdates r fs ++ runUpdates rest

/-- A list of rationals is in non-decreasing order. -/
def nondecreasing : List ℚ → Bool
  | [] => true
  | [_] => true
  | a :: b :: rest => decide (a ≤ b) && nondecreasing (b :: rest)

/-- Modelled from the spec: a stage's internal progress notifications are
fractional values in [0,1], applied in non-decreasing order
(sections 4.2 and 5, single-writer discipline). -/
def fracsWF (fs : List ℚ) : Bool :=
  fs.all (fun f => decide (0 ≤ f) && decide (f ≤ 1)) && nondecreasing fs

/-- Modelled from the spec: the pipeline definition's ranges partition the
progress axis starting at `cur`: each stage starts where the running
boundary stands, each range is ordered, and each stage's notification list
is well formed (sections 3 and 4.2). -/
def chainFrom : ℚ → List (StageRange × List ℚ) → Bool
  | _, [] => true
  | cur, (r, fs) :: rest =>
    decide (r.startP = cur) && decide (r.startP ≤ r.endP) &&
    fracsWF fs && chainFrom r.endP rest

/-- Modelled from the spec: the value a status poll observes after the
first `k` progress writes have been applied to the task record store —
the most recent write, or the creation value 0 when none has landed yet
(sections 3 and 4.1). -/
def observedProgress : List ℚ → Nat → ℚ
  | _, 0 => 0
  | [], _ + 1 => 0
  | x :: xs, k + 1 => if xs = [] ∨ k = 0 then x else observedProgress xs k

lemma nondecreasing_pairwise : ∀ {l : List ℚ},
    nondecreasing l = true → l.Pairwise (· ≤ ·)
  | [], _ => .nil
  | [a], _ => List.pairwise_singleton _ a
  | a :: b :: rest, h => by
    simp only [nondecreasing, Bool.and_eq_true, decide_eq_true_eq] at h
    have ih := nondecreasing_pairwise h.2
    refine List.Pairwise.cons ?_ ih
    intro y hy
    rcases List.mem_cons.mp hy with rfl | hy
    · exact h.1
    · have hb := (List.pairwise_cons.mp ih).1 y hy
      linarith [h.1]

lemma interpolate_mono {r : StageRange} (h : r.startP ≤ r.endP)
    {f g : ℚ} (hfg : f ≤ g) : interpolate r f ≤ interpolate r g := by
  unfold interpolate
  have := mul_le_mul_of_nonneg_right hfg (sub_nonneg.mpr h)
  linarith

lemma interpolate_lb {r : StageRange} (h : r.startP ≤ r.endP)
    {f : ℚ} (hf : 0 ≤ f) : r.startP ≤ interpolate r f := by
  unfold interpolate
  have := mul_nonneg hf (sub_nonneg.mpr h)
  linarith

lemma interpolate_ub {r : StageRange} (h : r.startP ≤ r.endP)
    {f : ℚ} (hf : f ≤ 1) : interpolate r f ≤ r.endP := by
  unfold interpolate
  have := mul_le_mul_of_nonneg_right hf (sub_nonneg.mpr h)
  linarith

lemma runUpdates_sorted_lb : ∀ (spec : List (StageRange × List ℚ)) (c : ℚ),
    chainFrom c spec = true →
    (runUpdates spec).Pairwise (· ≤ ·) ∧ ∀ x ∈ runUpdates spec, c ≤ x := by
  intro spec
  induction spec with
  | nil => exact fun c _ => ⟨.nil, by simp [runUpdates]⟩
  | cons hd rest ih =>
    intro c hchain
    obtain ⟨r, fs⟩ := hd
    simp only [chainFrom, Bool.and_eq_true, decide_eq_true_eq] at hchain
    obtain ⟨⟨⟨hstart, hse⟩, hwf⟩, hrest⟩ := hchain
    obtain ⟨ihpw, ihlb⟩ := ih r.endP hrest
    simp only [fracsWF, Bool.and_eq_true] at hwf
    obtain ⟨hbounds, hsorted⟩ := hwf
    have hbmem : ∀ f ∈ fs, 0 ≤ f ∧ f ≤ 1 := by
      intro f hf
      have := List.all_eq_true.mp hbounds f hf
      simpa using this
    have hfs_pw : fs.Pairwise (· ≤ ·) := nondecreasing_pairwise hsorted
    constructor
    · rw [runUpdates, List.pairwise_append]
      refine ⟨?_, ihpw, ?_⟩
      · exact List.Pairwise.map _ (fun a b hab => interpolate_mono hse hab) hfs_pw
      · intro a ha b hb
        obtain ⟨f, hf, rfl⟩ := List.mem_map.mp ha
        have h1 : interpolate r f ≤ r.endP := interpolate_ub hse (hbmem f hf).2
        have h2 : r.endP ≤ b := ihlb b hb
        linarith
    · intro x hx
      rw [runUpdates] at hx
      rcases List.mem_append.mp hx with hx | hx
      · obtain ⟨f, hf, rfl⟩ := List.mem_map.mp hx
        have := interpolate_lb hse (hbmem f hf).1
        linarith [hstart.symm.le]
      · have := ihlb x hx
        have h2 : c ≤ r.endP := by rw [← hstart]; exact hse
        linarith

lemma le_observedProgress_of_le_all {c : ℚ} : ∀ {l : List ℚ} {k : Nat},
    (∀ y ∈ l, c ≤ y) → l ≠ [] → 1 ≤ k → c ≤ observedProgress l k
  | [], _, _, hne, _ => absurd rfl hne
  | x :: xs, 0, _, _, hk => absurd hk (by omega)
  | x :: xs, k + 1, hall, _, _ => by
    rw [observedProgress]
    by_cases hcond : xs = [] ∨ k = 0
    · rw [if_pos hcond]
      exact hall x (List.mem_cons_self x xs)
    · rw [if_neg hcond]
      push_neg at hcond
      exact le_observedProgress_of_le_all
        (fun y hy => hall y (List.mem_cons_of_mem x hy)) hcond.1 (by omega)

lemma observedProgress_nonneg {l : List ℚ} {k : Nat}
    (h : ∀ y ∈ l, 0 ≤ y) : 0 ≤ observedProgress l k := by
  cases k with
  | zero => cases l <;> simp [observedProgress]
  | succ k =>
    cases l with
    | nil => simp [observedProgress]
    | cons x xs =>
      exact le_observedProgress_of_le_all h (by simp) (by omega)

lemma observedProgress_mono : ∀ (l : List ℚ), l.Pairwise (· ≤ ·) →
    (∀ y ∈ l, 0 ≤ y) → ∀ k1 k2 : Nat, k1 ≤ k2 →
    observedProgress l k1 ≤ observedProgress l k2 := by
  intro l
  induction l with
  | nil =>
    intro _ _ k1 k2 _
    cases k1 <;> cases k2 <;> simp [observedProgress]
  | cons x xs ih =>
    intro hpw hnn k1 k2 hk
    obtain ⟨hhead, htail⟩ := List.pairwise_cons.mp hpw
    have hnx : 0 ≤ x := hnn x (List.mem_cons_self x xs)
    have hnxs : ∀ y ∈ xs, 0 ≤ y := fun y hy => hnn y (List.mem_cons_of_mem x hy)
    cases k1 with
    | zero =>
      have h0 : observedProgress (x :: xs) 0 = 0 := rfl
      rw [h0]
      exact observedProgress_nonneg hnn
    | succ k1 =>
      cases k2 with
      | zero => omega
      | succ k2 =>
        rw [observedProgress, observedProgress]
        by_cases hxs : xs = []
        · simp [hxs]
        · by_cases hk1 : k1 = 0
          · rw [if_pos (Or.inr hk1)]
            by_cases hk2 : k2 = 0
            · rw [if_pos (Or.inr hk2)]
            · rw [if_neg (by tauto)]
              exact le_observedProgress_of_le_all hhead hxs (by omega)
          · rw [if_neg (by tauto)]
            have hk2 : ¬k2 = 0 := by omega
            rw [if_neg (by tauto)]
            exact ih htail hnxs k1 k2 (by omega)

/-- Claim C8: for every task — modelled as any pipeline execution whose
stage ranges chain from 0 and whose per-stage fractional notifications are
in [0,1] and non-decreasing — the progress value observed by any two
status polls, one taken after at most as many progress writes as the
other, is non-decreasing. -/
theorem claim8_progress_monotone (spec : List (StageRange × List ℚ))
    (hchain : chainFrom 0 spec = true) (k1 k2 : Nat) (hk : k1 ≤ k2) :
    observedProgress (runUpdates spec) k1 ≤ observedProgress (runUpdates spec) k2 := by
  obtain ⟨hpw, hlb⟩ := runUpdates_sorted_lb spec 0 hchain
  exact observedProgress_mono _ hpw (fun y hy => hlb y hy) k1 k2 hk

/-- A concrete pipeline run over the spec's five stages, each reporting
fractional progress 0 and/or 1. -/
def demoRun : List (StageRange × List ℚ) :=
  [({ name := "Cloning repository", startP := 0, endP := 20 }, [0, 1]),
   ({ name := "Analyzing code", startP := 20, endP := 30 }, [1]),
   ({ name := "Generating tests", startP := 30, endP := 70 }, [0, 1]),
   ({ name := "Executing tests", startP := 70, endP := 90 }, [1]),
   ({ name := "Finalizing results", startP := 90, endP := 100 }, [1])]

/-- Concrete instance of claim C8: on the demo pipeline run, the progress
observed by a poll after two writes is at most the progress observed by a
poll after five writes. -/
theorem claim8_witness :
    chainFrom 0 demoRun = true ∧
    observedProgress (runUpdates demoRun) 2 ≤ observedProgress (runUpdates demoRun) 5 :=
  ⟨by decide, claim8_progress_monotone demoRun (by decide) 2 5 (by decide)⟩

end UnitTestAgent
